import Mathlib

/-!
Verification of the data-projection and time-zoom core of the `bottom`
terminal resource monitor, shallowly embedded from
`src/app/widgets/base/time_graph.rs` and `src/data_conversion.rs`.

All `u64` quantities are modelled as `Nat`; Rust `saturating_sub` is `Nat`
truncated subtraction, and unchecked `u64` addition is modelled by a checked
variant that fails (as a debug-build panic would) when the mathematical sum
exceeds `2^64 - 1`.  Wall-clock instants are modelled as explicit `Nat`
millisecond timestamps passed to each operation; `Instant::elapsed` and
`Instant::duration_since` saturate at zero exactly like `Nat` subtraction.
`f64` sample values are modelled as `ℚ` (they are exact in all scenarios
considered), except for the logarithmic network projection which lives in `ℝ`.
-/

/-- Largest value representable in a `u64`. -/
def U64MAX : ℕ := 2 ^ 64 - 1

/-- Result type returned by component event handlers
(`ComponentEventResult` in the source; only the variants reachable from the
time-graph handlers are modelled). -/
inductive ComponentEventResult where
  | Unhandled
  | Redraw
  | NoRedraw
deriving DecidableEq, Repr

/-- `AutohideTimerState` from `time_graph.rs`: the timer is either hidden or
running since some instant. -/
inductive AutohideTimerState where
  | Hidden
  | Running (trigger_instant : ℕ)
deriving DecidableEq, Repr

/-- `AutohideTimer` from `time_graph.rs`. -/
inductive AutohideTimer where
  | AlwaysShow
  | AlwaysHide
  | Enabled (state : AutohideTimerState) (show_duration : ℕ)
deriving DecidableEq, Repr

/-- `AutohideTimer::start_display_timer`, with `Instant::now()` passed in
explicitly as `now`. -/
def AutohideTimer.start_display_timer (a : AutohideTimer) (now : ℕ) : AutohideTimer :=
  match a with
  | .AlwaysShow => .AlwaysShow
  | .AlwaysHide => .AlwaysHide
  | .Enabled _ show_duration => .Enabled (.Running now) show_duration

/-- `AutohideTimer::update_display_timer`: a running timer becomes hidden once
the elapsed time strictly exceeds the show duration. -/
def AutohideTimer.update_display_timer (a : AutohideTimer) (now : ℕ) : AutohideTimer :=
  match a with
  | .AlwaysShow => .AlwaysShow
  | .AlwaysHide => .AlwaysHide
  | .Enabled .Hidden d => .Enabled .Hidden d
  | .Enabled (.Running trigger_instant) d =>
      if d < now - trigger_instant then .Enabled .Hidden d
      else .Enabled (.Running trigger_instant) d

/-- `AutohideTimer::is_showing`: updates the timer first, then reports
visibility.  Returns the updated timer together with the boolean. -/
def AutohideTimer.is_showing (a : AutohideTimer) (now : ℕ) : AutohideTimer × Bool :=
  let a := a.update_display_timer now
  (a, match a with
      | .AlwaysShow => true
      | .AlwaysHide => false
      | .Enabled .Hidden _ => false
      | .Enabled (.Running _) _ => true)

/-- The `TimeGraph` widget state from `time_graph.rs` (the two rendering-only
`Rect` fields are omitted: no modelled operation reads them). -/
structure TimeGraph where
  current_display_time : ℕ
  autohide_timer : AutohideTimer
  default_time_value : ℕ
  min_duration : ℕ
  max_duration : ℕ
  time_interval : ℕ
  use_dot : Bool
deriving DecidableEq, Repr

/-- `TimeGraph::new`: stores its arguments unvalidated; `default_time_value`
is initialised to `start_value`. -/
def TimeGraph.new (start_value : ℕ) (autohide_timer : AutohideTimer)
    (min_duration max_duration time_interval : ℕ) (use_dot : Bool) : TimeGraph :=
  { current_display_time := start_value
    autohide_timer := autohide_timer
    default_time_value := start_value
    min_duration := min_duration
    max_duration := max_duration
    time_interval := time_interval
    use_dot := use_dot }

/-- `TimeGraph::zoom_in`.  `saturating_sub` is `Nat` subtraction. -/
def TimeGraph.zoom_in (s : TimeGraph) (now : ℕ) : TimeGraph × ComponentEventResult :=
  let new_time := s.current_display_time - s.time_interval
  if s.current_display_time = new_time then
    (s, .NoRedraw)
  else if s.min_duration ≤ new_time then
    ({ s with current_display_time := new_time,
              autohide_timer := s.autohide_timer.start_display_timer now }, .Redraw)
  else if new_time ≠ s.min_duration then
    ({ s with current_display_time := s.min_duration,
              autohide_timer := s.autohide_timer.start_display_timer now }, .Redraw)
  else
    (s, .NoRedraw)

/-- `TimeGraph::zoom_out` over mathematical integers (no overflow); the
source adds two `u64`s unchecked, see `TimeGraph.zoom_out_checked`. -/
def TimeGraph.zoom_out_nat (s : TimeGraph) (now : ℕ) : TimeGraph × ComponentEventResult :=
  let new_time := s.current_display_time + s.time_interval
  if s.current_display_time = new_time then
    (s, .NoRedraw)
  else if new_time ≤ s.max_duration then
    ({ s with current_display_time := new_time,
              autohide_timer := s.autohide_timer.start_display_timer now }, .Redraw)
  else if new_time ≠ s.max_duration then
    ({ s with current_display_time := s.max_duration,
              autohide_timer := s.autohide_timer.start_display_timer now }, .Redraw)
  else
    (s, .NoRedraw)

/-- `TimeGraph::zoom_out` with the unchecked `u64` addition
`current_display_time + time_interval` made explicit: `none` models the
debug-build overflow panic. -/
def TimeGraph.zoom_out_checked (s : TimeGraph) (now : ℕ) :
    Option (TimeGraph × ComponentEventResult) :=
  if s.current_display_time + s.time_interval ≤ U64MAX then
    some (s.zoom_out_nat now)
  else
    none

/-- `TimeGraph::reset_zoom`. -/
def TimeGraph.reset_zoom (s : TimeGraph) (now : ℕ) : TimeGraph × ComponentEventResult :=
  if s.current_display_time = s.default_time_value then
    (s, .NoRedraw)
  else
    ({ s with current_display_time := s.default_time_value,
              autohide_timer := s.autohide_timer.start_display_timer now }, .Redraw)

/-- Iterated `zoom_in`, consuming a stream `ts` of wall-clock instants (one
per call). -/
def zoomInSteps (ts : ℕ → ℕ) : ℕ → TimeGraph → TimeGraph
  | 0, s => s
  | n + 1, s => zoomInSteps (fun i => ts (i + 1)) n (s.zoom_in (ts 0)).1

/-- Iterated `zoom_out_checked`, consuming a stream `ts` of wall-clock
instants: `none` as soon as any step's `u64` addition would overflow. -/
def zoomOutStepsChecked (ts : ℕ → ℕ) : ℕ → TimeGraph → Option TimeGraph
  | 0, s => some s
  | n + 1, s =>
      match s.zoom_out_checked (ts 0) with
      | none => none
      | some r => zoomOutStepsChecked (fun i => ts (i + 1)) n r.1

/-- The behaviour claimed by the specification for `zoom_in` (differs from the
source in the third branch, which the spec guards by
"min_ms differs from current" where the source tests the candidate against
the floor).  Used only to compare the claim with the code. -/
def TimeGraph.zoom_in_claim (s : TimeGraph) (now : ℕ) : TimeGraph × ComponentEventResult :=
  let new_time := s.current_display_time - s.time_interval
  if s.current_display_time = new_time then
    (s, .NoRedraw)
  else if s.min_duration ≤ new_time then
    ({ s with current_display_time := new_time,
              autohide_timer := s.autohide_timer.start_display_timer now }, .Redraw)
  else if s.min_duration ≠ s.current_display_time then
    ({ s with current_display_time := s.min_duration,
              autohide_timer := s.autohide_timer.start_display_timer now }, .Redraw)
  else
    (s, .NoRedraw)

/-- The `min_ms ≤ current_ms ≤ max_ms` window invariant from the spec. -/
def TimeGraph.Inv (s : TimeGraph) : Prop :=
  s.min_duration ≤ s.current_display_time ∧ s.current_display_time ≤ s.max_duration

instance (s : TimeGraph) : Decidable s.Inv :=
  inferInstanceAs (Decidable (_ ∧ _))

/-!
## Decimal formatting model

Rust `format!` machinery used by `data_conversion.rs`: integers print in
decimal; a float printed with precision `N` is rounded to `N` decimal places
with ties resolved to even (the values that arise here are exact in `f64`,
so the rounding of the exact rational value is what Rust prints).
-/

/-- The decimal digit characters. -/
def digitChar (d : ℕ) : Char :=
  match d with
  | 0 => '0' | 1 => '1' | 2 => '2' | 3 => '3' | 4 => '4'
  | 5 => '5' | 6 => '6' | 7 => '7' | 8 => '8' | 9 => '9'
  | _ => '*'

/-- Little-endian decimal digits of `n`; the first argument is fuel
(any fuel at least `n` is exact). -/
def natDigitsAux : ℕ → ℕ → List ℕ
  | 0, _ => []
  | _ + 1, 0 => []
  | fuel + 1, n + 1 => ((n + 1) % 10) :: natDigitsAux fuel ((n + 1) / 10)

/-- The characters Rust prints for the integer `n` in decimal. -/
def natStrList (n : ℕ) : List Char :=
  if n = 0 then ['0'] else ((natDigitsAux n n).map digitChar).reverse

/-- Round a rational to the nearest integer, ties to even, computed on the
numerator and denominator so the kernel can evaluate it: with floor `f` the
fractional part compares to one half as `2 * (num - f * den)` against
`den`. -/
def roundHE (q : ℚ) : ℤ :=
  let n := q.num
  let d : ℤ := (q.den : ℤ)
  let f := Int.fdiv n d
  let r2 := 2 * (n - f * d)
  if r2 < d then f
  else if d < r2 then f + 1
  else if f % 2 = 0 then f else f + 1

/-- Characters of Rust `format!` with precision 0 applied to a nonnegative
value `q`. -/
def fmt0L (q : ℚ) : List Char :=
  natStrList (roundHE q).toNat

/-- Characters of Rust `format!` with precision 1 applied to a nonnegative
value `q`. -/
def fmt1L (q : ℚ) : List Char :=
  let r := (roundHE (mkRat (10 * q.num) q.den)).toNat
  natStrList (r / 10) ++ '.' :: [digitChar (r % 10)]

/-- Rust `format!` with precision 0 (as a `String`). -/
def fmt0 (q : ℚ) : String := String.mk (fmt0L q)

/-- Rust `format!` with precision 1 (as a `String`). -/
def fmt1 (q : ℚ) : String := String.mk (fmt1L q)

/-- Rust numeric right-alignment: pad on the left with spaces up to width
`w`. -/
def leftPad (w : ℕ) (s : String) : String :=
  String.mk (List.replicate (w - s.length) ' ') ++ s

/-- Number of digit characters immediately following the last '.' of a
string (0 when the string has no '.'); measures how many decimal places a
formatted number displays. -/
def decPlacesL (l : List Char) : ℕ :=
  if '.' ∈ l then
    (((l.reverse.takeWhile (fun c => c ≠ '.')).reverse).takeWhile Char.isDigit).length
  else 0

/-- `decPlacesL` on the characters of a string. -/
def decPlaces (s : String) : ℕ := decPlacesL s.toList

/-!
## Magnitude constants and the binary-bytes conversion

These live in `utils::gen_util`, which is not part of the sources under
review; they are reconstructed from the specification.
-/

/-- Modelled from the spec: binary magnitude thresholds (`KIBI_LIMIT` and
friends in `utils::gen_util`): 1024 and its powers. -/
def KIBI_LIMIT : ℕ := 1024

/-- Modelled from the spec: the mebi threshold, 1024 squared. -/
def MEBI_LIMIT : ℕ := 1024 ^ 2

/-- Modelled from the spec: the gibi threshold, 1024 cubed. -/
def GIBI_LIMIT : ℕ := 1024 ^ 3

/-- Modelled from the spec: the tebi threshold, 1024 to the fourth. -/
def TEBI_LIMIT : ℕ := 1024 ^ 4

/-- Modelled from the spec: `get_binary_bytes` in `utils::gen_util` (not
under the sources reviewed): selects the binary magnitude unit for a byte
count by the thresholds 1024, 1024 squared, 1024 cubed (and tebi beyond)
and scales by the divisor just below the chosen unit. -/
def get_binary_bytes (v : ℕ) : ℚ × String :=
  if v < KIBI_LIMIT then (mkRat (v : ℤ) 1, "B")
  else if v < MEBI_LIMIT then (mkRat (v : ℤ) KIBI_LIMIT, "KiB")
  else if v < GIBI_LIMIT then (mkRat (v : ℤ) MEBI_LIMIT, "MiB")
  else if v < TEBI_LIMIT then (mkRat (v : ℤ) GIBI_LIMIT, "GiB")
  else (mkRat (v : ℤ) TEBI_LIMIT, "TiB")

/-- `binary_byte_string` from `data_conversion.rs`: one decimal place at or
above `GIBI_LIMIT`, zero below. -/
def binary_byte_string (value : ℕ) : String :=
  let converted_values := get_binary_bytes value
  if GIBI_LIMIT ≤ value then fmt1 converted_values.1 ++ converted_values.2
  else fmt0 converted_values.1 ++ converted_values.2

/-!
## History snapshot data model

`DataCollection` and the harvest structures live in `app::data_farmer` /
`app::data_harvester` (not under the sources reviewed); the fields below are
the ones `data_conversion.rs` reads, reconstructed from those reads and the
specification.
-/

/-- Modelled from the spec: `CpuDataType` from `data_harvester::cpu`, a tag
carried through unchanged by the projection (average or a numbered core). -/
inductive CpuDataType where
  | Avg
  | Cpu (idx : ℕ)
deriving DecidableEq, Repr

/-- Modelled from the spec: one entry of `DataCollection::cpu_harvest`; the
projection only reads its `data_type`. -/
structure CpuData where
  data_type : CpuDataType
deriving DecidableEq, Repr

/-- Modelled from the spec: a memory or swap harvest
(`data_harvester::memory::MemHarvest`): totals and used in kibibytes plus an
optional use percentage. -/
structure MemHarvest where
  mem_total_in_kib : ℕ
  mem_used_in_kib : ℕ
  use_percent : Option ℚ
deriving DecidableEq, Repr

/-- Modelled from the spec: one timed history entry (`TimedData`): optional
per-metric readings for one poll tick.  `rx_data` and `tx_data` are
bit-denominated rates. -/
structure TimedData where
  cpu_data : List ℚ
  mem_data : Option ℚ
  swap_data : Option ℚ
  rx_data : ℚ
  tx_data : ℚ
deriving DecidableEq, Repr

/-- Modelled from the spec: the external history buffer (`DataCollection`),
restricted to the fields the projection pass reads.  Timestamps are `Nat`
milliseconds. -/
structure DataCollection where
  timed_data_vec : List (ℕ × TimedData)
  current_instant : ℕ
  frozen_instant : Option ℕ
  cpu_harvest : List CpuData
  memory_harvest : MemHarvest
  swap_harvest : MemHarvest

/-- The active "now" reference: `frozen_instant` when set, else
`current_instant` (the `if let Some(frozen_instant)` pattern shared by every
projector). -/
def DataCollection.now_reference (d : DataCollection) : ℕ :=
  match d.frozen_instant with
  | some frozen_instant => frozen_instant
  | none => d.current_instant

/-- A converted sample point: millisecond offset (nonpositive) and value. -/
abbrev Point := ℤ × ℚ

/-- Loop body of `convert_mem_data_points`: push a point for each entry that
carries a memory value; break when the entry at the now reference carries a
memory value (the break sits inside the `if let`). -/
def mem_points_walk (now : ℕ) : List (ℕ × TimedData) → List Point
  | [] => []
  | (time, data) :: rest =>
      match data.mem_data with
      | some mem_data =>
          (-((now - time : ℕ) : ℤ), mem_data) ::
            (if time = now then [] else mem_points_walk now rest)
      | none => mem_points_walk now rest

/-- `convert_mem_data_points` from `data_conversion.rs`. -/
def convert_mem_data_points (current_data : DataCollection) : List Point :=
  mem_points_walk current_data.now_reference current_data.timed_data_vec

/-- Loop body of `convert_swap_data_points` (identical shape to the memory
walk, on the swap reading). -/
def swap_points_walk (now : ℕ) : List (ℕ × TimedData) → List Point
  | [] => []
  | (time, data) :: rest =>
      match data.swap_data with
      | some swap_data =>
          (-((now - time : ℕ) : ℤ), swap_data) ::
            (if time = now then [] else swap_points_walk now rest)
      | none => swap_points_walk now rest

/-- `convert_swap_data_points` from `data_conversion.rs`. -/
def convert_swap_data_points (current_data : DataCollection) : List Point :=
  swap_points_walk current_data.now_reference current_data.timed_data_vec

/-- The walk the specification claims for the memory projector: stop at the
entry whose timestamp equals the now reference even when it carries no
memory value.  Used only to compare the claim with the code. -/
def mem_points_walk_claim (now : ℕ) : List (ℕ × TimedData) → List Point
  | [] => []
  | (time, data) :: rest =>
      (match data.mem_data with
       | some mem_data => [(-((now - time : ℕ) : ℤ), mem_data)]
       | none => []) ++
        (if time = now then [] else mem_points_walk_claim now rest)

/-- Claim-side memory projector (stops unconditionally at the now entry). -/
def convert_mem_data_points_claim (current_data : DataCollection) : List Point :=
  mem_points_walk_claim current_data.now_reference current_data.timed_data_vec

/-- Local helper of `convert_mem_labels`: unit and denominator for a total
given in kibibytes. -/
def return_unit_and_denominator_for_mem_kib (mem_total_kib : ℕ) : String × ℕ :=
  if mem_total_kib < 1024 then ("KiB", 1)
  else if mem_total_kib < MEBI_LIMIT then ("MiB", KIBI_LIMIT)
  else if mem_total_kib < GIBI_LIMIT then ("GiB", MEBI_LIMIT)
  else ("TiB", GIBI_LIMIT)

/-- The label pair `convert_mem_labels` builds from one harvest: `None` when
the total is zero, else the width-3 zero-decimal percentage and the
`"   {:.1}{}/{:.1}{}"` absolute text (note the unit printed after the used
amount and again after the total). -/
def mem_label (h : MemHarvest) : Option (String × String) :=
  if 0 < h.mem_total_in_kib then
    some
      (leftPad 3 (fmt0 (h.use_percent.getD 0)) ++ "%",
        let ud := return_unit_and_denominator_for_mem_kib h.mem_total_in_kib
        "   " ++ fmt1 (mkRat (h.mem_used_in_kib : ℤ) ud.2) ++ ud.1 ++ "/" ++
          fmt1 (mkRat (h.mem_total_in_kib : ℤ) ud.2) ++ ud.1)
  else none

/-- `convert_mem_labels` from `data_conversion.rs`: the memory and swap label
pairs (the source spells the same construction out twice). -/
def convert_mem_labels (current_data : DataCollection) :
    Option (String × String) × Option (String × String) :=
  (mem_label current_data.memory_harvest, mem_label current_data.swap_harvest)

/-- The absolute-text shape claimed by the specification, with a single unit
after the total.  Used only to compare the claim with the code. -/
def mem_label_claim (h : MemHarvest) : Option (String × String) :=
  if 0 < h.mem_total_in_kib then
    some
      (leftPad 3 (fmt0 (h.use_percent.getD 0)) ++ "%",
        let ud := return_unit_and_denominator_for_mem_kib h.mem_total_in_kib
        "   " ++ fmt1 (mkRat (h.mem_used_in_kib : ℤ) ud.2) ++ "/" ++
          fmt1 (mkRat (h.mem_total_in_kib : ℤ) ud.2) ++ ud.1)
  else none

/-!
## CPU projection
-/

/-- `CpuWidgetData` from `data_conversion.rs`: the aggregate placeholder or a
per-core entry with its buffered series and latest value. -/
inductive CpuWidgetData where
  | All
  | Entry (data_type : CpuDataType) (data : List Point) (last_entry : ℚ)
deriving DecidableEq, Repr

/-- Refresh step for one existing per-core entry: clear the buffered series
and overwrite the latest value (the `All` case is `unreachable!()` in the
source and is modelled as the identity). -/
def cpu_refresh_one (cpu : CpuWidgetData) (cpu_usage : ℚ) : CpuWidgetData :=
  match cpu with
  | .All => .All
  | .Entry data_type _ _ => .Entry data_type [] cpu_usage

/-- The `iter_mut().skip(1).zip(..)` refresh loop: only the zipped entries
are touched; the tail past the shorter list stays as it was. -/
def cpu_refresh_tail : List CpuWidgetData → List ℚ → List CpuWidgetData
  | es, [] => es
  | [], _ => []
  | e :: es, u :: us => cpu_refresh_one e u :: cpu_refresh_tail es us

/-- The reconcile phase of `convert_cpu_data_points`: if the per-core count
of the latest entry plus one (for the aggregate) differs from the current
list length, rebuild the list from scratch (aggregate placeholder at index
0, then one empty entry per core zipped with the harvest); otherwise refresh
every existing per-core entry in place.  No latest entry means no change. -/
def cpu_phase1 (cur : List CpuWidgetData) (current_data : DataCollection) :
    List CpuWidgetData :=
  match current_data.timed_data_vec.getLast? with
  | none => cur
  | some (_time, data) =>
      if data.cpu_data.length + 1 ≠ cur.length then
        .All ::
          List.zipWith (fun cpu_usage h => .Entry h.data_type [] cpu_usage)
            data.cpu_data current_data.cpu_harvest
      else
        match cur with
        | [] => []
        | c0 :: rest => c0 :: cpu_refresh_tail rest data.cpu_data

/-- The per-core history walk of `convert_cpu_data_points`: push a point for
every entry whose tick carries core `itx`; break unconditionally at the
entry whose timestamp equals the now reference. -/
def cpu_walk (now itx : ℕ) : List (ℕ × TimedData) → List Point
  | [] => []
  | (time, timed_data) :: rest =>
      (match timed_data.cpu_data[itx]? with
       | some val => [(-((now - time : ℕ) : ℤ), val)]
       | none => []) ++
        (if time = now then [] else cpu_walk now itx rest)

/-- Repopulation phase: every per-core entry (indices 1 and up, per-core
index one less) re-walks the snapshot; index 0 keeps the placeholder. -/
def cpu_phase2 (now : ℕ) (vec : List (ℕ × TimedData)) (l : List CpuWidgetData) :
    List CpuWidgetData :=
  l.mapIdx fun i cpu =>
    if i = 0 then cpu
    else
      match cpu with
      | .All => .All
      | .Entry data_type _ last_entry =>
          .Entry data_type (cpu_walk now (i - 1) vec) last_entry

/-- `ConvertedData::convert_cpu_data_points`: reconcile then repopulate. -/
def convert_cpu_data_points (cur : List CpuWidgetData) (current_data : DataCollection) :
    List CpuWidgetData :=
  cpu_phase2 current_data.now_reference current_data.timed_data_vec
    (cpu_phase1 cur current_data)

/-!
## Network projection
-/

/-- `AxisScaling` from `app`. -/
inductive AxisScaling where
  | Log
  | Linear
deriving DecidableEq, Repr

/-- `DataUnit` from `units::data_units`. -/
inductive DataUnit where
  | Byte
  | Bit
deriving DecidableEq, Repr

/-- The per-sample scaling of `get_rx_tx_data_points`, on the bit-denominated
raw value `x`.  In Log-Byte-binary mode the source subtracts 4 from the
base-2 logarithm (its comment asserts dividing by 8 subtracts 4 in base 2,
which is false: it subtracts 3). -/
noncomputable def net_point_value (network_scale_type : AxisScaling)
    (network_unit_type : DataUnit) (use_binary_units : Bool) (x : ℚ) : ℝ :=
  match network_scale_type with
  | .Log =>
      if use_binary_units then
        match network_unit_type with
        | .Byte => Real.logb 2 (x : ℝ) - 4
        | .Bit => Real.logb 2 (x : ℝ)
      else
        match network_unit_type with
        | .Byte => Real.logb 10 ((x : ℝ) / 8)
        | .Bit => Real.logb 10 (x : ℝ)
  | .Linear =>
      match network_unit_type with
      | .Byte => (x : ℝ) / 8
      | .Bit => (x : ℝ)

/-- Loop of `get_rx_tx_data_points`: push the scaled rx and tx values for
every entry, breaking unconditionally at the entry whose timestamp equals
the now reference. -/
noncomputable def net_walk (now : ℕ) (network_scale_type : AxisScaling)
    (network_unit_type : DataUnit) (use_binary_units : Bool) :
    List (ℕ × TimedData) → List (ℝ × ℝ) × List (ℝ × ℝ)
  | [] => ([], [])
  | (time, data) :: rest =>
      let off : ℝ := -((now - time : ℕ) : ℝ)
      let rx_data := net_point_value network_scale_type network_unit_type
        use_binary_units data.rx_data
      let tx_data := net_point_value network_scale_type network_unit_type
        use_binary_units data.tx_data
      let tail :=
        if time = now then (([], []) : List (ℝ × ℝ) × List (ℝ × ℝ))
        else net_walk now network_scale_type network_unit_type use_binary_units rest
      ((off, rx_data) :: tail.1, (off, tx_data) :: tail.2)

/-- `get_rx_tx_data_points` from `data_conversion.rs`. -/
noncomputable def get_rx_tx_data_points (current_data : DataCollection)
    (network_scale_type : AxisScaling) (network_unit_type : DataUnit)
    (use_binary_units : Bool) : List (ℝ × ℝ) × List (ℝ × ℝ) :=
  net_walk current_data.now_reference network_scale_type network_unit_type
    use_binary_units current_data.timed_data_vec

/-!
## Concrete instances used in counterexamples and witnesses
-/

/-- A tick carrying only a memory reading. -/
def tick_mem (m : ℚ) : TimedData :=
  { cpu_data := [], mem_data := some m, swap_data := none, rx_data := 0, tx_data := 0 }

/-- A tick carrying no readings at all. -/
def tick_empty : TimedData :=
  { cpu_data := [], mem_data := none, swap_data := none, rx_data := 0, tx_data := 0 }

/-- A tick carrying only a swap reading. -/
def tick_swap (m : ℚ) : TimedData :=
  { cpu_data := [], mem_data := none, swap_data := some m, rx_data := 0, tx_data := 0 }

/-- An empty harvest (no capacity). -/
def harvest_none : MemHarvest := ⟨0, 0, none⟩

/-- Three-entry history for the end-to-end memory scenario: values 10, 20,
30 at 0 ms, 500 ms and 1000 ms, with the live now reference at 1000 ms. -/
def history3 : DataCollection :=
  { timed_data_vec := [(0, tick_mem 10), (500, tick_mem 20), (1000, tick_mem 30)]
    current_instant := 1000, frozen_instant := none
    cpu_harvest := [], memory_harvest := harvest_none, swap_harvest := harvest_none }

/-- History whose entry at the now reference (10 ms) carries no memory
value, while a later entry (20 ms) does. -/
def history_gap : DataCollection :=
  { timed_data_vec := [(0, tick_mem 1), (10, tick_empty), (20, tick_mem 5)]
    current_instant := 10, frozen_instant := none
    cpu_harvest := [], memory_harvest := harvest_none, swap_harvest := harvest_none }

/-- One-entry history whose single tick reports 16 bits on both rx and tx,
timestamped at the now reference. -/
def history_net16 : DataCollection :=
  { timed_data_vec :=
      [(0, { cpu_data := [], mem_data := none, swap_data := none,
             rx_data := 16, tx_data := 16 })]
    current_instant := 0, frozen_instant := none
    cpu_harvest := [], memory_harvest := harvest_none, swap_harvest := harvest_none }

/-- A window pinned at its floor: current = min = 100 ms, step 100 ms. -/
def graph_at_floor : TimeGraph := TimeGraph.new 100 .AlwaysShow 100 200 100 false

/-- A window pinned at its ceiling: current = max = 200 ms, step 100 ms. -/
def graph_at_ceiling : TimeGraph := TimeGraph.new 200 .AlwaysShow 100 200 100 false

/-- A harvest of 2048 KiB total, 1024 KiB used, 50 percent. -/
def harvest2048 : MemHarvest := ⟨2048, 1024, some 50⟩

/-- History whose latest tick reports two cores (so the rebuilt widget list
must have three entries), with an aligned two-core harvest. -/
def history_cpu2 : DataCollection :=
  { timed_data_vec :=
      [(0, { cpu_data := [30, 40], mem_data := none, swap_data := none,
             rx_data := 0, tx_data := 0 })]
    current_instant := 0, frozen_instant := none
    cpu_harvest := [⟨.Cpu 0⟩, ⟨.Cpu 1⟩]
    memory_harvest := harvest_none, swap_harvest := harvest_none }

/-- The unit chooser as the specification words it: KiB below 1024 KiB, MiB
below 1024 squared, GiB below 1024 cubed, else TiB, scaling by the divisor
of the chosen unit.  Used to compare the claim with the code. -/
def unit_denominator_spec (kib : ℕ) : String × ℕ :=
  if kib < 1024 then ("KiB", 1)
  else if kib < 1048576 then ("MiB", 1024)
  else if kib < 1073741824 then ("GiB", 1048576)
  else ("TiB", 1073741824)

/-- A collection whose memory harvest is `harvest2048` (history itself is
irrelevant to the labels). -/
def collection_mem2048 : DataCollection :=
  { timed_data_vec := [], current_instant := 0, frozen_instant := none
    cpu_harvest := [], memory_harvest := harvest2048, swap_harvest := harvest_none }

/-- A tick carrying a memory and a swap reading. -/
def tick_both (m s : ℚ) : TimedData :=
  { cpu_data := [], mem_data := some m, swap_data := some s, rx_data := 0, tx_data := 0 }

/-- Three-entry history whose middle entry sits at the now reference (10 ms)
and carries both a memory and a swap value, with a later entry behind it. -/
def history_stop : DataCollection :=
  { timed_data_vec := [(0, tick_both 1 7), (10, tick_both 2 8), (20, tick_both 5 9)]
    current_instant := 10, frozen_instant := none
    cpu_harvest := [], memory_harvest := harvest_none, swap_harvest := harvest_none }

/-!
## Theorems
-/

theorem zoom_in_preserves_params (s : TimeGraph) (now : ℕ) :
    (s.zoom_in now).1.min_duration = s.min_duration ∧
    (s.zoom_in now).1.max_duration = s.max_duration ∧
    (s.zoom_in now).1.time_interval = s.time_interval := by
  simp only [TimeGraph.zoom_in]
  split_ifs <;> exact ⟨rfl, rfl, rfl⟩

theorem zoom_out_preserves_params (s : TimeGraph) (now : ℕ) :
    (s.zoom_out_nat now).1.min_duration = s.min_duration ∧
    (s.zoom_out_nat now).1.max_duration = s.max_duration ∧
    (s.zoom_out_nat now).1.time_interval = s.time_interval := by
  simp only [TimeGraph.zoom_out_nat]
  split_ifs <;> exact ⟨rfl, rfl, rfl⟩

theorem zoom_in_strict_progress (s : TimeGraph) (now : ℕ)
    (hstep : 0 < s.time_interval) (hlt : s.min_duration < s.current_display_time) :
    s.min_duration ≤ (s.zoom_in now).1.current_display_time ∧
    (s.zoom_in now).1.current_display_time < s.current_display_time := by
  simp only [TimeGraph.zoom_in]
  split_ifs with h1 h2 h3 <;> simp <;> omega

theorem zoom_out_strict_progress (s : TimeGraph) (now : ℕ)
    (hstep : 0 < s.time_interval) (hlt : s.current_display_time < s.max_duration) :
    (s.zoom_out_nat now).1.current_display_time ≤ s.max_duration ∧
    s.current_display_time < (s.zoom_out_nat now).1.current_display_time := by
  simp only [TimeGraph.zoom_out_nat]
  split_ifs with h1 h2 h3 <;> simp <;> omega

theorem zoomIn_reaches_floor (k : ℕ) :
    ∀ (ts : ℕ → ℕ) (s : TimeGraph), 0 < s.time_interval →
      s.min_duration ≤ s.current_display_time →
      s.current_display_time - s.min_duration ≤ k →
      ∃ n, (zoomInSteps ts n s).current_display_time = s.min_duration := by
  induction k with
  | zero =>
      intro ts s _ hle hk
      exact ⟨0, by simpa [zoomInSteps] using le_antisymm (by omega) hle⟩
  | succ k ih =>
      intro ts s hstep hle hk
      rcases eq_or_lt_of_le hle with heq | hlt
      · exact ⟨0, by simp [zoomInSteps, heq.symm]⟩
      · obtain ⟨hmin, hmax, hint⟩ := zoom_in_preserves_params s (ts 0)
        obtain ⟨hge, hdec⟩ := zoom_in_strict_progress s (ts 0) hstep hlt
        obtain ⟨n, hn⟩ := ih (fun i => ts (i + 1)) (s.zoom_in (ts 0)).1
          (by rw [hint]; exact hstep) (by rw [hmin]; exact hge) (by omega)
        exact ⟨n + 1, by rw [zoomInSteps, hn, hmin]⟩

theorem zoom_out_checked_eq_some (s : TimeGraph) (now : ℕ)
    (hle : s.current_display_time ≤ s.max_duration)
    (hovf : s.max_duration + s.time_interval ≤ U64MAX) :
    s.zoom_out_checked now = some (s.zoom_out_nat now) := by
  unfold TimeGraph.zoom_out_checked
  rw [if_pos (by omega)]

theorem zoomOutChecked_reaches_ceiling (k : ℕ) :
    ∀ (ts : ℕ → ℕ) (s : TimeGraph), 0 < s.time_interval →
      s.current_display_time ≤ s.max_duration →
      s.max_duration + s.time_interval ≤ U64MAX →
      s.max_duration - s.current_display_time ≤ k →
      ∃ n s', zoomOutStepsChecked ts n s = some s' ∧
        s'.current_display_time = s.max_duration := by
  induction k with
  | zero =>
      intro ts s _ hle hovf hk
      exact ⟨0, s, rfl, le_antisymm hle (by omega)⟩
  | succ k ih =>
      intro ts s hstep hle hovf hk
      rcases eq_or_lt_of_le hle with heq | hlt
      · exact ⟨0, s, rfl, heq⟩
      · obtain ⟨hmin, hmax, hint⟩ := zoom_out_preserves_params s (ts 0)
        obtain ⟨hge, hinc⟩ := zoom_out_strict_progress s (ts 0) hstep hlt
        obtain ⟨n, s', hn, hs'⟩ := ih (fun i => ts (i + 1)) (s.zoom_out_nat (ts 0)).1
          (by rw [hint]; exact hstep) (by rw [hmax]; exact hge)
          (by rw [hmax, hint]; exact hovf) (by omega)
        refine ⟨n + 1, s', ?_, by rw [hs', hmax]⟩
        simp only [zoomOutStepsChecked, zoom_out_checked_eq_some s (ts 0) hle hovf]
        exact hn

/-- C1: the specification's account of the `zoom_in` branches disagrees with
the source at a window pinned at a positive floor: the source tests the
candidate (not the current value) against the floor, re-clamps and reports
`Redraw`, where the claim demands `NoRedraw`. -/
theorem C1_counterexample :
    (graph_at_floor.zoom_in 0).2 = ComponentEventResult.Redraw ∧
    (graph_at_floor.zoom_in_claim 0).2 = ComponentEventResult.NoRedraw ∧
    ComponentEventResult.Redraw ≠ ComponentEventResult.NoRedraw := by
  refine ⟨by decide, by decide, by decide⟩

/-- C1 (amended): `zoom_in` computes the saturating candidate; an unchanged
candidate gives `NoRedraw`; a candidate at or above the floor commits and
redraws; otherwise the window re-clamps to the floor and redraws (the source
compares the candidate, not the current value, with the floor, so this
branch fires even when already pinned).  Hence repeated `zoom_in` reaches
`min_duration`, after which every call returns `NoRedraw` when the floor is
zero and `Redraw` (with the window unchanged) when it is positive.
Symmetrically for `zoom_out` with ceiling `max_duration`, scoped to
non-overflowing `u64` additions (the unchecked addition in the source
panics or wraps otherwise): when
`max_duration + time_interval ≤ 2^64 - 1` repeated `zoom_out` reaches the
ceiling with every step's addition in range, and once pinned there every
call whose addition stays in range returns `Redraw` with the window
unchanged. -/
theorem C1_zoom_clamp_amended :
    (∀ (s : TimeGraph) (now : ℕ),
        s.current_display_time - s.time_interval = s.current_display_time →
        s.zoom_in now = (s, ComponentEventResult.NoRedraw)) ∧
    (∀ (s : TimeGraph) (now : ℕ),
        s.current_display_time - s.time_interval ≠ s.current_display_time →
        s.min_duration ≤ s.current_display_time - s.time_interval →
        (s.zoom_in now).1.current_display_time =
            s.current_display_time - s.time_interval ∧
        (s.zoom_in now).1.autohide_timer = s.autohide_timer.start_display_timer now ∧
        (s.zoom_in now).2 = ComponentEventResult.Redraw) ∧
    (∀ (s : TimeGraph) (now : ℕ),
        s.current_display_time - s.time_interval ≠ s.current_display_time →
        s.current_display_time - s.time_interval < s.min_duration →
        (s.zoom_in now).1.current_display_time = s.min_duration ∧
        (s.zoom_in now).1.autohide_timer = s.autohide_timer.start_display_timer now ∧
        (s.zoom_in now).2 = ComponentEventResult.Redraw) ∧
    (∀ (s : TimeGraph) (ts : ℕ → ℕ),
        0 < s.time_interval → s.min_duration ≤ s.current_display_time →
        ∃ n, (zoomInSteps ts n s).current_display_time = s.min_duration) ∧
    (∀ (s : TimeGraph) (now : ℕ),
        0 < s.time_interval → s.current_display_time = s.min_duration →
        (s.zoom_in now).1.current_display_time = s.min_duration ∧
        (s.zoom_in now).2 =
          (if s.min_duration = 0 then ComponentEventResult.NoRedraw
           else ComponentEventResult.Redraw)) ∧
    (∀ (s : TimeGraph) (ts : ℕ → ℕ),
        0 < s.time_interval → s.current_display_time ≤ s.max_duration →
        s.max_duration + s.time_interval ≤ U64MAX →
        ∃ n s', zoomOutStepsChecked ts n s = some s' ∧
          s'.current_display_time = s.max_duration) ∧
    (∀ (s : TimeGraph) (now : ℕ) (r : TimeGraph × ComponentEventResult),
        0 < s.time_interval → s.current_display_time = s.max_duration →
        s.zoom_out_checked now = some r →
        r.1.current_display_time = s.max_duration ∧
        r.2 = ComponentEventResult.Redraw) := by
  refine ⟨?_, ?_, ?_, ?_, ?_, ?_, ?_⟩
  · intro s now h1
    unfold TimeGraph.zoom_in
    rw [if_pos h1.symm]
  · intro s now h1 h2
    unfold TimeGraph.zoom_in
    rw [if_neg (fun h => h1 h.symm), if_pos h2]
    exact ⟨rfl, rfl, rfl⟩
  · intro s now h1 h2
    unfold TimeGraph.zoom_in
    rw [if_neg (fun h => h1 h.symm), if_neg (by omega), if_pos (by omega)]
    simp
  · intro s ts hstep hle
    exact zoomIn_reaches_floor (s.current_display_time - s.min_duration) ts s hstep hle le_rfl
  · intro s now hstep hcur
    by_cases hmin : s.min_duration = 0
    · unfold TimeGraph.zoom_in
      rw [if_pos (by omega)]
      simp [hcur, hmin]
    · unfold TimeGraph.zoom_in
      rw [if_neg (by omega), if_neg (by omega), if_pos (by omega)]
      simp [hmin]
  · intro s ts hstep hle hovf
    exact zoomOutChecked_reaches_ceiling (s.max_duration - s.current_display_time) ts s
      hstep hle hovf le_rfl
  · intro s now r hstep hcur hr
    simp only [TimeGraph.zoom_out_checked] at hr
    split_ifs at hr with hovf
    injection hr with hr'
    subst hr'
    unfold TimeGraph.zoom_out_nat
    rw [if_neg (by omega), if_neg (by omega), if_pos (by omega)]
    simp

/-- C1 (witness): at a window pinned at the 100 ms floor with a 100 ms step
the amended behaviour instantiates (perpetual `Redraw` at the floor); from
300 ms above a 100 ms floor repeated `zoom_in` reaches the floor; at the
200 ms ceiling the non-overflowing `zoom_out` re-clamps with `Redraw`; and
from 100 ms below a 200 ms ceiling the checked iteration reaches the
ceiling without overflow. -/
theorem C1_zoom_clamp_amended_witness :
    (0 < graph_at_floor.time_interval ∧
      graph_at_floor.current_display_time = graph_at_floor.min_duration) ∧
    (graph_at_floor.zoom_in 7).1.current_display_time = graph_at_floor.min_duration ∧
    (graph_at_floor.zoom_in 7).2 =
      (if graph_at_floor.min_duration = 0 then ComponentEventResult.NoRedraw
       else ComponentEventResult.Redraw) ∧
    (∃ n, (zoomInSteps (fun _ => 0) n
        (TimeGraph.new 300 .AlwaysShow 100 400 100 false)).current_display_time =
      (TimeGraph.new 300 .AlwaysShow 100 400 100 false).min_duration) ∧
    (0 < graph_at_ceiling.time_interval ∧
      graph_at_ceiling.current_display_time = graph_at_ceiling.max_duration ∧
      graph_at_ceiling.zoom_out_checked 7 = some (graph_at_ceiling.zoom_out_nat 7)) ∧
    ((graph_at_ceiling.zoom_out_nat 7).1.current_display_time =
        graph_at_ceiling.max_duration ∧
      (graph_at_ceiling.zoom_out_nat 7).2 = ComponentEventResult.Redraw) ∧
    (∃ n s', zoomOutStepsChecked (fun _ => 0) n graph_at_floor = some s' ∧
      s'.current_display_time = graph_at_floor.max_duration) := by
  refine ⟨⟨by decide, by decide⟩, ?_, ?_, ?_, ⟨by decide, by decide, by decide⟩, ?_, ?_⟩
  · exact (C1_zoom_clamp_amended.2.2.2.2.1 graph_at_floor 7 (by decide) (by decide)).1
  · exact (C1_zoom_clamp_amended.2.2.2.2.1 graph_at_floor 7 (by decide) (by decide)).2
  · exact C1_zoom_clamp_amended.2.2.2.1 (TimeGraph.new 300 .AlwaysShow 100 400 100 false)
      (fun _ => 0) (by decide) (by decide)
  · exact C1_zoom_clamp_amended.2.2.2.2.2.2 graph_at_ceiling 7
      (graph_at_ceiling.zoom_out_nat 7) (by decide) (by decide) (by decide)
  · exact C1_zoom_clamp_amended.2.2.2.2.2.1 graph_at_floor (fun _ => 0)
      (by decide) (by decide) (by decide)

/-- C4: the claimed invariant is not established by construction:
`TimeGraph::new` stores its arguments unvalidated, so a start value below
the floor yields a state violating `min_ms ≤ current_ms`. -/
theorem C4_counterexample :
    ¬ (TimeGraph.new 5 .AlwaysShow 10 20 1 false).Inv := by
  decide

/-- C4 (amended): `min_ms ≤ current_ms ≤ max_ms` is preserved by `zoom_in`,
by `zoom_out` whenever its addition does not overflow, and by `reset_zoom`
provided the reset target lies within the bounds; it is not established by
construction, since `new` (and hence `from_config`) stores its arguments
unvalidated. -/
theorem C4_invariant_preservation :
    (∀ (s : TimeGraph) (now : ℕ), s.Inv → (s.zoom_in now).1.Inv) ∧
    (∀ (s : TimeGraph) (now : ℕ) (r : TimeGraph × ComponentEventResult),
        s.Inv → s.zoom_out_checked now = some r → r.1.Inv) ∧
    (∀ (s : TimeGraph) (now : ℕ), s.Inv →
        s.min_duration ≤ s.default_time_value →
        s.default_time_value ≤ s.max_duration →
        (s.reset_zoom now).1.Inv) := by
  refine ⟨?_, ?_, ?_⟩
  · intro s now hs
    obtain ⟨h1, h2⟩ := hs
    simp only [TimeGraph.zoom_in, TimeGraph.Inv]
    split_ifs <;> simp <;> omega
  · intro s now r hs hr
    obtain ⟨h1, h2⟩ := hs
    simp only [TimeGraph.zoom_out_checked] at hr
    split_ifs at hr with hovf
    · injection hr with hr'
      subst hr'
      simp only [TimeGraph.zoom_out_nat, TimeGraph.Inv]
      split_ifs <;> simp <;> omega
  · intro s now hs hd1 hd2
    obtain ⟨h1, h2⟩ := hs
    simp only [TimeGraph.reset_zoom, TimeGraph.Inv]
    split_ifs <;> simp <;> omega

/-- C4 (witness): a well-formed window at its floor stays well-formed under
`zoom_in`, `zoom_out` and `reset_zoom`. -/
theorem C4_invariant_preservation_witness :
    (graph_at_floor.Inv ∧
      graph_at_floor.zoom_out_checked 0 = some (graph_at_floor.zoom_out_nat 0) ∧
      graph_at_floor.min_duration ≤ graph_at_floor.default_time_value ∧
      graph_at_floor.default_time_value ≤ graph_at_floor.max_duration) ∧
    (graph_at_floor.zoom_in 0).1.Inv ∧
    (graph_at_floor.zoom_out_nat 0).1.Inv ∧
    (graph_at_floor.reset_zoom 0).1.Inv := by
  refine ⟨⟨by decide, by decide, by decide, by decide⟩, ?_, ?_, ?_⟩
  · exact C4_invariant_preservation.1 graph_at_floor 0 (by decide)
  · exact C4_invariant_preservation.2.1 graph_at_floor 0 (graph_at_floor.zoom_out_nat 0)
      (by decide) (by decide)
  · exact C4_invariant_preservation.2.2 graph_at_floor 0 (by decide) (by decide) (by decide)

/-- C10: `zoom_in` is total — its saturating candidate keeps the window
inside the `u64` range — while `zoom_out` (whose candidate is an unchecked
`u64` addition) succeeds exactly when
`current_display_time + time_interval` does not exceed `2^64 - 1`. -/
theorem C10_zoom_totality :
    (∀ (s : TimeGraph) (now : ℕ),
        s.current_display_time ≤ U64MAX → s.min_duration ≤ U64MAX →
        (s.zoom_in now).1.current_display_time ≤ U64MAX) ∧
    (∀ (s : TimeGraph) (now : ℕ),
        (s.zoom_out_checked now).isSome ↔
          s.current_display_time + s.time_interval ≤ U64MAX) := by
  constructor
  · intro s now hc hm
    simp only [TimeGraph.zoom_in]
    split_ifs <;> simp <;> omega
  · intro s now
    simp only [TimeGraph.zoom_out_checked]
    split_ifs with h <;> simp [h]

/-- C10 (witness): at the concrete floor-pinned window both parts apply. -/
theorem C10_zoom_totality_witness :
    (graph_at_floor.current_display_time ≤ U64MAX ∧
      graph_at_floor.min_duration ≤ U64MAX) ∧
    (graph_at_floor.zoom_in 0).1.current_display_time ≤ U64MAX ∧
    ((graph_at_floor.zoom_out_checked 0).isSome ↔
      graph_at_floor.current_display_time + graph_at_floor.time_interval ≤ U64MAX) := by
  refine ⟨⟨by decide, by decide⟩, ?_, ?_⟩
  · exact C10_zoom_totality.1 graph_at_floor 0 (by decide) (by decide)
  · exact C10_zoom_totality.2 graph_at_floor 0

/-- C9: an `Enabled` autohide timer of duration `D` shows immediately after
`start_display_timer`, and stops showing once the elapsed real time since
that start strictly exceeds `D` with no intervening start; `AlwaysShow`
always shows, `AlwaysHide` never does, and `is_showing` applies
`update_display_timer` first. -/
theorem C9_autohide_timer :
    (∀ (st : AutohideTimerState) (D t0 : ℕ),
        (((AutohideTimer.Enabled st D).start_display_timer t0).is_showing t0).2 = true) ∧
    (∀ (st : AutohideTimerState) (D t0 t1 : ℕ), D < t1 - t0 →
        (((AutohideTimer.Enabled st D).start_display_timer t0).is_showing t1).2 = false) ∧
    (∀ t : ℕ, (AutohideTimer.AlwaysShow.is_showing t).2 = true ∧
        (AutohideTimer.AlwaysHide.is_showing t).2 = false) ∧
    (∀ (a : AutohideTimer) (t : ℕ), (a.is_showing t).1 = a.update_display_timer t) := by
  refine ⟨?_, ?_, ?_, ?_⟩
  · intro st D t0
    simp [AutohideTimer.start_display_timer, AutohideTimer.is_showing,
      AutohideTimer.update_display_timer]
  · intro st D t0 t1 h
    simp [AutohideTimer.start_display_timer, AutohideTimer.is_showing,
      AutohideTimer.update_display_timer, h]
  · intro t
    constructor <;> rfl
  · intro a t
    rfl

/-- C9 (witness): a 5 ms timer started at 0 is hidden at 6 ms. -/
theorem C9_autohide_timer_witness :
    (5 : ℕ) < 6 - 0 ∧
    (((AutohideTimer.Enabled .Hidden 5).start_display_timer 0).is_showing 6).2 = false :=
  ⟨by decide, C9_autohide_timer.2.1 .Hidden 5 0 6 (by decide)⟩

/-- C5: projecting the three-entry history (values 10, 20, 30 at 0 ms,
500 ms and 1000 ms, now reference 1000 ms) yields exactly offsets
-1000, -500, 0 paired with those values; `convert_mem_data_points` takes no
display-width parameter, so the result holds regardless of
`current_display_ms`. -/
theorem C5_mem_projection_end_to_end :
    convert_mem_data_points history3 = [(-1000, 10), (-500, 20), (0, 30)] := by
  decide

/-- C3: with the now reference at 10 ms but the 10 ms entry carrying no
memory value, the memory projector walks past the now entry and the later
20 ms entry contributes a point, contradicting the claimed unconditional
stop (the claim-side walk stops at the now entry and omits it). -/
theorem C3_counterexample :
    convert_mem_data_points history_gap = [(-10, 1), (0, 5)] ∧
    convert_mem_data_points_claim history_gap = [(-10, 1)] ∧
    convert_mem_data_points history_gap ≠ convert_mem_data_points_claim history_gap := by
  refine ⟨by decide, by decide, by decide⟩

theorem mem_points_walk_stop (now : ℕ) (e : TimedData) (m : ℚ)
    (he : e.mem_data = some m) :
    ∀ (pre post : List (ℕ × TimedData)),
      mem_points_walk now (pre ++ (now, e) :: post) =
        mem_points_walk now (pre ++ [(now, e)]) := by
  intro pre
  induction pre with
  | nil =>
      intro post
      simp [mem_points_walk, he]
  | cons hd tl ih =>
      intro post
      obtain ⟨t, d⟩ := hd
      cases hmem : d.mem_data with
      | none => simpa [mem_points_walk, hmem] using ih post
      | some v =>
          by_cases ht : t = now
          · simp [mem_points_walk, hmem, ht]
          · simpa [mem_points_walk, hmem, ht] using ih post

theorem swap_points_walk_stop (now : ℕ) (e : TimedData) (m : ℚ)
    (he : e.swap_data = some m) :
    ∀ (pre post : List (ℕ × TimedData)),
      swap_points_walk now (pre ++ (now, e) :: post) =
        swap_points_walk now (pre ++ [(now, e)]) := by
  intro pre
  induction pre with
  | nil =>
      intro post
      simp [swap_points_walk, he]
  | cons hd tl ih =>
      intro post
      obtain ⟨t, d⟩ := hd
      cases hswap : d.swap_data with
      | none => simpa [swap_points_walk, hswap] using ih post
      | some v =>
          by_cases ht : t = now
          · simp [swap_points_walk, hswap, ht]
          · simpa [swap_points_walk, hswap, ht] using ih post

/-- C3 (amended): the memory and swap projectors stop at the entry whose
timestamp equals the active now reference provided that entry carries a
value for the metric; in that case entries after it contribute nothing
(when the now entry carries no value the walk continues, as the
counterexample shows). -/
theorem C3_stop_at_now_amended :
    (∀ (d : DataCollection) (pre post : List (ℕ × TimedData)) (e : TimedData) (m : ℚ),
        d.timed_data_vec = pre ++ (d.now_reference, e) :: post →
        e.mem_data = some m →
        convert_mem_data_points d =
          mem_points_walk d.now_reference (pre ++ [(d.now_reference, e)])) ∧
    (∀ (d : DataCollection) (pre post : List (ℕ × TimedData)) (e : TimedData) (m : ℚ),
        d.timed_data_vec = pre ++ (d.now_reference, e) :: post →
        e.swap_data = some m →
        convert_swap_data_points d =
          swap_points_walk d.now_reference (pre ++ [(d.now_reference, e)])) := by
  constructor
  · intro d pre post e m hvec he
    unfold convert_mem_data_points
    rw [hvec]
    exact mem_points_walk_stop d.now_reference e m he pre post
  · intro d pre post e m hvec he
    unfold convert_swap_data_points
    rw [hvec]
    exact swap_points_walk_stop d.now_reference e m he pre post

/-- C3 (witness): in `history_stop` the 10 ms now entry carries values for
both metrics, so the projections ignore the 20 ms entry behind it. -/
theorem C3_stop_at_now_amended_witness :
    (history_stop.timed_data_vec =
        [(0, tick_both 1 7)] ++ (history_stop.now_reference, tick_both 2 8) ::
          [(20, tick_both 5 9)]) ∧
    convert_mem_data_points history_stop =
      mem_points_walk history_stop.now_reference
        ([(0, tick_both 1 7)] ++ [(history_stop.now_reference, tick_both 2 8)]) ∧
    convert_swap_data_points history_stop =
      swap_points_walk history_stop.now_reference
        ([(0, tick_both 1 7)] ++ [(history_stop.now_reference, tick_both 2 8)]) := by
  refine ⟨by decide, ?_, ?_⟩
  · exact C3_stop_at_now_amended.1 history_stop [(0, tick_both 1 7)] [(20, tick_both 5 9)]
      (tick_both 2 8) 2 (by decide) (by decide)
  · exact C3_stop_at_now_amended.2 history_stop [(0, tick_both 1 7)] [(20, tick_both 5 9)]
      (tick_both 2 8) 8 (by decide) (by decide)

theorem logb_two_sixteen : Real.logb 2 16 = 4 := by
  rw [show (16 : ℝ) = (2 : ℝ) ^ (4 : ℕ) by norm_num, Real.logb_pow,
    Real.logb_self_eq_one (by norm_num)]
  norm_num

/-- C2: in Log scale, Byte unit, binary-prefix mode the source projects
`log2(raw) - 4` (its comment wrongly asserts dividing by 8 subtracts 4 in
base 2), so on a 16-bit sample the projected value is 0 while the claimed
`log2(raw) - 3` is 1. -/
theorem C2_log_byte_binary_subtracts_four :
    (get_rx_tx_data_points history_net16 .Log .Byte true).1 = [(0, 0)] ∧
    Real.logb 2 16 - 3 = 1 ∧
    ((0 : ℝ) ≠ Real.logb 2 16 - 3) := by
  refine ⟨?_, ?_, ?_⟩
  · simp only [get_rx_tx_data_points, net_walk, net_point_value, history_net16,
      DataCollection.now_reference]
    norm_num [logb_two_sixteen]
  · rw [logb_two_sixteen]; norm_num
  · rw [logb_two_sixteen]; norm_num

theorem zipWith_getElem?_some {α β γ : Type} (f : α → β → γ) :
    ∀ (as : List α) (bs : List β) (i : ℕ) (a : α) (b : β),
      as[i]? = some a → bs[i]? = some b →
      (List.zipWith f as bs)[i]? = some (f a b) := by
  intro as
  induction as with
  | nil => intro bs i a b ha; simp at ha
  | cons a0 as ih =>
      intro bs i a b ha hb
      cases bs with
      | nil => simp at hb
      | cons b0 bs =>
          cases i with
          | zero =>
              simp only [List.getElem?_cons_zero, Option.some.injEq] at ha hb
              simp [List.zipWith, ha, hb]
          | succ j =>
              simp only [List.getElem?_cons_succ] at ha hb
              simpa [List.zipWith] using ih bs j a b ha hb

/-- C8: when the per-core count implied by the latest snapshot entry plus
one (for the aggregate) differs from the current list length, the rebuild
step produces a list of length `new_core_count + 1` whose head is the
aggregate placeholder and whose per-core entries all carry an empty
buffered series with the latest sample as `last_entry` (assuming the
harvest is aligned with the latest entry, the collector's invariant). -/
theorem C8_cpu_rebuild :
    ∀ (cur : List CpuWidgetData) (d : DataCollection) (t : ℕ) (data : TimedData),
      d.timed_data_vec.getLast? = some (t, data) →
      data.cpu_data.length + 1 ≠ cur.length →
      d.cpu_harvest.length = data.cpu_data.length →
      (cpu_phase1 cur d).length = data.cpu_data.length + 1 ∧
      (cpu_phase1 cur d).head? = some .All ∧
      (∀ (i : ℕ) (u : ℚ) (h : CpuData),
        data.cpu_data[i]? = some u → d.cpu_harvest[i]? = some h →
        (cpu_phase1 cur d)[i + 1]? = some (.Entry h.data_type [] u)) := by
  intro cur d t data hlast hne halign
  have hform : cpu_phase1 cur d =
      .All :: List.zipWith (fun cpu_usage h => .Entry h.data_type [] cpu_usage)
        data.cpu_data d.cpu_harvest := by
    simp only [cpu_phase1, hlast]
    rw [if_pos hne]
  refine ⟨?_, ?_, ?_⟩
  · rw [hform]
    simp [List.length_zipWith, halign]
  · rw [hform]; rfl
  · intro i u h hu hh
    rw [hform]
    simpa [List.getElem?_cons_succ] using
      zipWith_getElem?_some (fun cpu_usage h => CpuWidgetData.Entry h.data_type [] cpu_usage)
        data.cpu_data d.cpu_harvest i u h hu hh

/-- C8 (witness): rebuilding from an empty widget list against the two-core
history yields the aggregate placeholder plus two fresh empty entries. -/
theorem C8_cpu_rebuild_witness :
    (history_cpu2.timed_data_vec.getLast? =
        some (0, { cpu_data := [30, 40], mem_data := none, swap_data := none,
                   rx_data := 0, tx_data := 0 }) ∧
      ([30, 40] : List ℚ).length + 1 ≠ ([] : List CpuWidgetData).length ∧
      history_cpu2.cpu_harvest.length = ([30, 40] : List ℚ).length) ∧
    (cpu_phase1 [] history_cpu2).length = 3 ∧
    (cpu_phase1 [] history_cpu2).head? = some .All ∧
    (cpu_phase1 [] history_cpu2)[2]? = some (.Entry (.Cpu 1) [] 40) := by
  have h := C8_cpu_rebuild [] history_cpu2 0
    { cpu_data := [30, 40], mem_data := none, swap_data := none,
      rx_data := 0, tx_data := 0 } (by decide) (by decide) (by decide)
  exact ⟨⟨by decide, by decide, by decide⟩, h.1, h.2.1,
    h.2.2 1 40 ⟨.Cpu 1⟩ (by decide) (by decide)⟩


/-- C7: the absolute label printed by the source repeats the unit after the
used amount as well as after the total (shape
`"   <used><unit>/<total><unit>"`), so on a 2048 KiB total with 1024 KiB
used it prints `"   1.0MiB/2.0MiB"` and not the claimed single-unit shape
`"   1.0/2.0MiB"`. -/
theorem C7_counterexample :
    (convert_mem_labels collection_mem2048).1 = some (" 50%", "   1.0MiB/2.0MiB") ∧
    mem_label_claim harvest2048 = some (" 50%", "   1.0/2.0MiB") ∧
    (convert_mem_labels collection_mem2048).1 ≠ mem_label_claim harvest2048 := by
  refine ⟨by decide, by decide, by decide⟩

theorem unit_denominator_eq (k : ℕ) :
    return_unit_and_denominator_for_mem_kib k = unit_denominator_spec k := by
  unfold return_unit_and_denominator_for_mem_kib unit_denominator_spec
    KIBI_LIMIT MEBI_LIMIT GIBI_LIMIT
  norm_num

/-- C7 (amended): a memory (resp. swap) label pair is `None` exactly when
the total capacity is zero; otherwise the percent text is the use
percentage at width 3 with no decimals followed by a percent sign, and the
absolute text is three spaces then used and total each at one decimal in
the unit chosen by the magnitude of the total, with the unit printed after
each of the two quantities. -/
theorem C7_mem_labels_amended :
    ∀ d : DataCollection,
      ((convert_mem_labels d).1 = none ↔ d.memory_harvest.mem_total_in_kib = 0) ∧
      ((convert_mem_labels d).2 = none ↔ d.swap_harvest.mem_total_in_kib = 0) ∧
      (∀ h : MemHarvest, 0 < h.mem_total_in_kib →
        mem_label h = some
          (leftPad 3 (fmt0 (h.use_percent.getD 0)) ++ "%",
            "   " ++
              fmt1 (mkRat (h.mem_used_in_kib : ℤ)
                (unit_denominator_spec h.mem_total_in_kib).2) ++
              (unit_denominator_spec h.mem_total_in_kib).1 ++ "/" ++
              fmt1 (mkRat (h.mem_total_in_kib : ℤ)
                (unit_denominator_spec h.mem_total_in_kib).2) ++
              (unit_denominator_spec h.mem_total_in_kib).1)) := by
  intro d
  refine ⟨?_, ?_, ?_⟩
  · simp only [convert_mem_labels, mem_label]
    split_ifs with hpos <;> simp <;> omega
  · simp only [convert_mem_labels, mem_label]
    split_ifs with hpos <;> simp <;> omega
  · intro h hpos
    simp only [mem_label, if_pos hpos, unit_denominator_eq]

/-- C7 (witness): the amended shape instantiated on the 2048 KiB harvest. -/
theorem C7_mem_labels_amended_witness :
    0 < harvest2048.mem_total_in_kib ∧
    mem_label harvest2048 = some
      (leftPad 3 (fmt0 (harvest2048.use_percent.getD 0)) ++ "%",
        "   " ++
          fmt1 (mkRat (harvest2048.mem_used_in_kib : ℤ)
            (unit_denominator_spec harvest2048.mem_total_in_kib).2) ++
          (unit_denominator_spec harvest2048.mem_total_in_kib).1 ++ "/" ++
          fmt1 (mkRat (harvest2048.mem_total_in_kib : ℤ)
            (unit_denominator_spec harvest2048.mem_total_in_kib).2) ++
          (unit_denominator_spec harvest2048.mem_total_in_kib).1) :=
  ⟨by decide, (C7_mem_labels_amended collection_mem2048).2.2 harvest2048 (by decide)⟩

theorem natDigitsAux_lt_ten (fuel : ℕ) :
    ∀ (n : ℕ), ∀ d ∈ natDigitsAux fuel n, d < 10 := by
  induction fuel with
  | zero => intro n d hd; simp [natDigitsAux] at hd
  | succ f ih =>
      intro n
      cases n with
      | zero => intro d hd; simp [natDigitsAux] at hd
      | succ m =>
          intro d hd
          simp only [natDigitsAux, List.mem_cons] at hd
          rcases hd with h | h
          · subst h; omega
          · exact ih _ d h

theorem digitChar_isDigit (d : ℕ) (hd : d < 10) : (digitChar d).isDigit = true := by
  interval_cases d <;> decide

theorem natStrList_digits (n : ℕ) : ∀ c ∈ natStrList n, c.isDigit = true := by
  intro c hc
  unfold natStrList at hc
  split at hc
  · rcases List.mem_singleton.mp hc with rfl
    decide
  · rw [List.mem_reverse, List.mem_map] at hc
    obtain ⟨d, hd, rfl⟩ := hc
    exact digitChar_isDigit d (natDigitsAux_lt_ten n n d hd)

theorem natStrList_no_dot (n : ℕ) : '.' ∉ natStrList n := by
  intro h
  exact absurd (natStrList_digits n '.' h) (by decide)

theorem takeWhile_append_all {p : Char → Bool} (l₂ : List Char) :
    ∀ l₁ : List Char, (∀ c ∈ l₁, p c = true) →
      (l₁ ++ l₂).takeWhile p = l₁ ++ l₂.takeWhile p := by
  intro l₁
  induction l₁ with
  | nil => intro _; simp
  | cons a l ih =>
      intro h
      have ha : p a = true := h a (by simp)
      simp [List.takeWhile_cons, ha, ih (fun c hc => h c (by simp [hc]))]

theorem decPlacesL_no_dot (l : List Char) (h : '.' ∉ l) : decPlacesL l = 0 := by
  unfold decPlacesL
  rw [if_neg h]

theorem decPlacesL_one (a : List Char) (d : Char) (u : List Char)
    (hd1 : d.isDigit = true) (hd2 : d ≠ '.')
    (hu1 : '.' ∉ u) (hu2 : u.takeWhile Char.isDigit = []) :
    decPlacesL (a ++ '.' :: d :: u) = 1 := by
  unfold decPlacesL
  rw [if_pos (by simp)]
  have hrev : (a ++ '.' :: d :: u).reverse = (u.reverse ++ [d]) ++ '.' :: a.reverse := by
    simp
  rw [hrev, takeWhile_append_all _ (u.reverse ++ [d]) ?hall]
  case hall =>
    intro c hc
    rw [decide_eq_true_eq]
    simp only [List.mem_append, List.mem_reverse, List.mem_singleton] at hc
    rcases hc with h | rfl
    · exact fun e => hu1 (e ▸ h)
    · exact hd2
  have hdot : List.takeWhile (fun c => decide (c ≠ '.')) ('.' :: a.reverse) = [] := by
    simp [List.takeWhile_cons]
  rw [hdot, List.append_nil, List.reverse_append, List.reverse_reverse]
  simp [List.takeWhile_cons, hd1, hu2]

theorem string_toList_append (s t : String) : (s ++ t).toList = s.toList ++ t.toList := by
  cases s; cases t; rfl

theorem decPlaces_fmt0_append (q : ℚ) (u : String) (hu : '.' ∉ u.toList) :
    decPlaces (fmt0 q ++ u) = 0 := by
  unfold decPlaces
  rw [string_toList_append]
  apply decPlacesL_no_dot
  intro hmem
  rcases List.mem_append.mp hmem with h | h
  · exact natStrList_no_dot _ h
  · exact hu h

theorem decPlaces_fmt1_append (q : ℚ) (u : String) (hu1 : '.' ∉ u.toList)
    (hu2 : u.toList.takeWhile Char.isDigit = []) :
    decPlaces (fmt1 q ++ u) = 1 := by
  unfold decPlaces
  rw [string_toList_append]
  have hshape : (fmt1 q).toList ++ u.toList =
      natStrList ((roundHE (mkRat (10 * q.num) q.den)).toNat / 10) ++
        '.' :: digitChar ((roundHE (mkRat (10 * q.num) q.den)).toNat % 10) :: u.toList := by
    simp [fmt1, fmt1L]
  rw [hshape]
  have hd1 : (digitChar ((roundHE (mkRat (10 * q.num) q.den)).toNat % 10)).isDigit = true :=
    digitChar_isDigit _ (by omega)
  refine decPlacesL_one _ _ _ hd1 ?_ hu1 hu2
  intro e
  rw [e] at hd1
  exact absurd hd1 (by decide)

/-- C6: `binary_byte_string` displays no decimal places below one gibibyte
and exactly one decimal place at or above it, and takes the claimed values
at the unit boundaries. -/
theorem C6_binary_byte_string :
    (∀ v : ℕ, v < 2 ^ 64 →
        decPlaces (binary_byte_string v) = if GIBI_LIMIT ≤ v then 1 else 0) ∧
    binary_byte_string 0 = "0B" ∧
    binary_byte_string 1023 = "1023B" ∧
    binary_byte_string 1024 = "1KiB" ∧
    binary_byte_string (1024 ^ 2) = "1MiB" ∧
    binary_byte_string (2 ^ 30) = "1.0GiB" ∧
    binary_byte_string (5 * 2 ^ 29) = "2.5GiB" := by
  refine ⟨?_, by decide, by decide, by decide, by decide, by decide, by decide⟩
  intro v _hv
  have e1 : KIBI_LIMIT = 1024 := by decide
  have e2 : MEBI_LIMIT = 1048576 := by decide
  have e3 : GIBI_LIMIT = 1073741824 := by decide
  have e4 : TEBI_LIMIT = 1099511627776 := by decide
  by_cases hg : GIBI_LIMIT ≤ v
  · rw [if_pos hg]
    unfold binary_byte_string
    rw [if_pos hg]
    by_cases ht : v < TEBI_LIMIT
    · have hgb : get_binary_bytes v = (mkRat (v : ℤ) GIBI_LIMIT, "GiB") := by
        unfold get_binary_bytes
        rw [if_neg (by omega), if_neg (by omega), if_neg (by omega), if_pos ht]
      rw [hgb]
      exact decPlaces_fmt1_append _ "GiB" (by decide) (by decide)
    · have hgb : get_binary_bytes v = (mkRat (v : ℤ) TEBI_LIMIT, "TiB") := by
        unfold get_binary_bytes
        rw [if_neg (by omega), if_neg (by omega), if_neg (by omega), if_neg ht]
      rw [hgb]
      exact decPlaces_fmt1_append _ "TiB" (by decide) (by decide)
  · rw [if_neg hg]
    unfold binary_byte_string
    rw [if_neg hg]
    by_cases h1 : v < KIBI_LIMIT
    · have hgb : get_binary_bytes v = (mkRat (v : ℤ) 1, "B") := by
        unfold get_binary_bytes
        rw [if_pos h1]
      rw [hgb]
      exact decPlaces_fmt0_append _ "B" (by decide)
    · by_cases h2 : v < MEBI_LIMIT
      · have hgb : get_binary_bytes v = (mkRat (v : ℤ) KIBI_LIMIT, "KiB") := by
          unfold get_binary_bytes
          rw [if_neg h1, if_pos h2]
        rw [hgb]
        exact decPlaces_fmt0_append _ "KiB" (by decide)
      · have hgb : get_binary_bytes v = (mkRat (v : ℤ) MEBI_LIMIT, "MiB") := by
          unfold get_binary_bytes
          rw [if_neg h1, if_neg h2, if_pos (by omega)]
        rw [hgb]
        exact decPlaces_fmt0_append _ "MiB" (by decide)

/-- C6 (witness): the decimal-place rule instantiated at 3 bytes. -/
theorem C6_binary_byte_string_witness :
    (3 : ℕ) < 2 ^ 64 ∧
    decPlaces (binary_byte_string 3) = if GIBI_LIMIT ≤ 3 then 1 else 0 :=
  ⟨by norm_num, C6_binary_byte_string.1 3 (by norm_num)⟩
